import Mathlib

/-!
Shallow embedding of the UnityIssue1154TestApp diagnostic harness.

The repository contains two near-duplicate variants of `main.cc`:

* the fixed-payload variant (`src/main.cc`): positional tokens `read` / `write`
  only, and every write sets the single field `"meaning" = Integer 42`;
* the flag-configurable variant (appended source file): additionally accepts
  `--key <v>` and `--value <v>`, each consuming the following token, applying
  globally to all writes, with defaults `"TestKey"` / `"TestValue"`.

The fixed-payload variant is embedded at top level; the flag-configurable
variant lives in namespace `Flagged`.  Command lines are modelled as the list
of argument tokens after the program name (the C++ loops start at `argv[1]`).
Each `Log(...)` call, which prints its parts followed by a newline, is
modelled as a single string (the concatenation of the parts) appended to the
log.  The external Firestore collaborator is modelled by an oracle assigning
to each operation position an `Outcome`: the completed future's error code,
error message, and (for reads) the snapshot's field data.
-/

/-- The `Operation` enum from `main.cc`. -/
inductive Operation where
  | kRead
  | kWrite
deriving DecidableEq, Repr

/-- Underlying integer value of the `Operation` enum class (`kRead = 0`,
`kWrite = 1`), used by the `switch` in `main`, whose `default` branch switches
on this value. -/
def Operation.toCInt : Operation → Int
  | .kRead => 0
  | .kWrite => 1

/-- Field values the harness sends or receives: `FieldValue::Integer` and
`FieldValue::String` are the only constructors it uses. -/
inductive FieldValue where
  | Integer (value : Int)
  | String (value : String)
deriving DecidableEq, Repr

/-- Rendering of a `FieldValue` by `operator<<` in the `Log` calls. -/
def renderFieldValue : FieldValue → String
  | .Integer i => toString i
  | .String s => s

/-- Completion of one asynchronous operation, as observed through the future
once it has completed: `error()`, `error_message()`, and for reads the data of
`result()`'s snapshot. -/
structure Outcome where
  error : Int
  errorMessage : String
  data : List (String × FieldValue)

/-- A request issued to the collaborator: `DocumentReference::Get` or
`DocumentReference::Set` with a field map. -/
inductive Request where
  | get
  | set (fields : List (String × FieldValue))
deriving DecidableEq, Repr

/-- Parse a single positional token, as in the loop body of
`ParseOperations` in `src/main.cc`. -/
def parseOp (tok : String) : Except String Operation :=
  if tok = "read" then .ok Operation.kRead
  else if tok = "write" then .ok Operation.kWrite
  else .error ("invalid argument: " ++ tok ++ " (must be either \"read\" or \"write\")")

/-- The message of the empty-command-line `ArgParseException`. -/
def noOpsMsg : String :=
  "No arguments specified; one or more of \"read\" or \"write\" is required"

/-- The token loop of `ParseOperations` (`src/main.cc`): push an operation per
token, aborting with the exception message at the first invalid token. -/
def ParseOperationsAux : List String → Except String (List Operation)
  | [] => .ok []
  | tok :: rest =>
    match parseOp tok with
    | .error e => .error e
    | .ok op =>
      match ParseOperationsAux rest with
      | .error e => .error e
      | .ok ops => .ok (op :: ops)

/-- `ParseOperations` from `src/main.cc`: loop over the tokens, then reject an
empty operation list. -/
def ParseOperations (argv : List String) : Except String (List Operation) :=
  match ParseOperationsAux argv with
  | .error e => .error e
  | .ok ops => if ops.length = 0 then .error noOpsMsg else .ok ops

/-- `FirestoreErrorNameFromErrorCode` from `main.cc`.  The numeric values of
the `Error` enum constants are the Firestore SDK's documented values
(`kErrorOk = 0` … `kErrorUnauthenticated = 16`, mirroring the canonical gRPC
codes); any other code falls through to `std::to_string`. -/
def FirestoreErrorNameFromErrorCode (error : Int) : String :=
  if error = 0 then "kErrorOk"
  else if error = 1 then "kErrorCancelled"
  else if error = 2 then "kErrorUnknown"
  else if error = 3 then "kErrorInvalidArgument"
  else if error = 4 then "kErrorDeadlineExceeded"
  else if error = 5 then "kErrorNotFound"
  else if error = 6 then "kErrorAlreadyExists"
  else if error = 7 then "kErrorPermissionDenied"
  else if error = 8 then "kErrorResourceExhausted"
  else if error = 9 then "kErrorFailedPrecondition"
  else if error = 10 then "kErrorAborted"
  else if error = 11 then "kErrorOutOfRange"
  else if error = 12 then "kErrorUnimplemented"
  else if error = 13 then "kErrorInternal"
  else if error = 14 then "kErrorUnavailable"
  else if error = 15 then "kErrorDataLoss"
  else if error = 16 then "kErrorUnauthenticated"
  else toString error

/-- Log lines produced by `AwaitCompletion(future, name)` once the future has
completed: the `" start"` line, then either the `" FAILED: ..."` line or the
`" done"` line depending on `future.error() != Error::kErrorOk`. -/
def awaitLog (name : String) (o : Outcome) : List String :=
  [name ++ " start",
   if o.error ≠ 0 then
     name ++ " FAILED: " ++ FirestoreErrorNameFromErrorCode o.error ++ " " ++ o.errorMessage
   else
     name ++ " done"]

/-- The field-enumeration loop at the end of `DoRead`: `entry_index` starts at
`i` and each line prints the pre-incremented index. -/
def entriesLogFrom : List (String × FieldValue) → Nat → List String
  | [], _ => []
  | (k, v) :: rest, i =>
    ("Entry #" ++ toString (i + 1) ++ ": " ++ k ++ "=" ++ renderFieldValue v)
      :: entriesLogFrom rest (i + 1)

/-- Log lines of `DoRead` (`src/main.cc`) given the completed future's
outcome: issue line, await lines, then unconditionally the field count and
the field enumeration of the result snapshot. -/
def doReadLog (o : Outcome) (path : String) : List String :=
  ("*** DoRead() doc=" ++ path)
    :: (awaitLog "DocumentReference.Get()" o
        ++ ("Document # key/value pairs: " ++ toString o.data.length)
           :: entriesLogFrom o.data 0)

/-- Log lines of `DoWrite` (`src/main.cc`) given the completed future's
outcome. -/
def doWriteLog (o : Outcome) (path : String) : List String :=
  ("*** DoWrite() doc=" ++ path) :: awaitLog "DocumentReference.Set()" o

/-- The field map built by `DoWrite` in `src/main.cc`:
`map["meaning"] = FieldValue::Integer(42)`. -/
def writeFields : List (String × FieldValue) := [("meaning", FieldValue.Integer 42)]

/-- One `case` of the `switch` in `main`'s loop, keyed on the underlying
integer of the operation; `none` is the `default` (internal error) branch. -/
def execTag (tag : Int) (o : Outcome) (path : String) :
    Option (List String × List Request) :=
  if tag = 0 then some (doReadLog o path, [Request.get])
  else if tag = 1 then some (doWriteLog o path, [Request.set writeFields])
  else none

/-- Result of a (partial or complete) program run: process exit code, log
lines in order, and the requests issued to the collaborator in order. -/
structure RunResult where
  log : List String
  requests : List Request
  exitCode : Nat
deriving Repr

/-- The operation loop of `main` in `src/main.cc`.  The oracle gives the
outcome of the operation at each position; hitting the `default` branch logs
the internal error and returns exit code 1, skipping the remaining
operations. -/
def runTags : List Int → (Nat → Outcome) → Nat → String → RunResult
  | [], _, _, _ => ⟨[], [], 0⟩
  | tag :: rest, oracle, i, path =>
    match execTag tag (oracle i) path with
    | none => ⟨["INTERNAL ERROR: unknown value for operation: " ++ toString tag], [], 1⟩
    | some (l, reqs) =>
      let r := runTags rest oracle (i + 1) path
      ⟨l ++ r.log, reqs ++ r.requests, r.exitCode⟩

/-- The fixed document path passed to `Firestore::Document`. -/
def docPath : String := "UnityIssue1154TestApp/TestDoc"

/-- `main` from `src/main.cc`: parse (exit 2 on failure), create the `App`
and `Firestore` handles (exit 1 on failure), then run the operations and
return the loop's exit code.  `appOk` / `fsOk` model whether the collaborator
returns non-null handles. -/
def mainRun (argv : List String) (appOk fsOk : Bool) (oracle : Nat → Outcome) : RunResult :=
  match ParseOperations argv with
  | .error msg => ⟨["ERROR: Invalid command-line arguments: " ++ msg], [], 2⟩
  | .ok ops =>
    if appOk then
      if fsOk then
        let r := runTags (ops.map Operation.toCInt) oracle 0 docPath
        ⟨"Creating firebase::App"
           :: "Creating firebase::firestore::Firestore"
           :: ("Performing " ++ toString ops.length ++ " operations on document: " ++ docPath)
           :: r.log,
         r.requests, r.exitCode⟩
      else
        ⟨["Creating firebase::App", "Creating firebase::firestore::Firestore",
          "ERROR: Creating firebase::firestore::Firestore FAILED!"], [], 1⟩
    else
      ⟨["Creating firebase::App", "ERROR: Creating firebase::App FAILED!"], [], 1⟩

/-! ### The flag-configurable variant -/

/-- `ParsedArguments` from the flag-configurable variant. -/
structure ParsedArguments where
  operations : List Operation
  key : String
  key_valid : Bool
  value : String
  value_valid : Bool
deriving DecidableEq, Repr

/-- The token loop and final checks of `ParseArguments` in the
flag-configurable variant: `nk` / `nv` are the `next_is_key` /
`next_is_value` flags, checked in the source's order; a token following a
flag is consumed unconditionally as its payload. -/
def ParseArgumentsAux : List String → ParsedArguments → Bool → Bool → Except String ParsedArguments
  | [], args, nk, nv =>
    if nk then .error "Expected argument after --key"
    else if nv then .error "Expected argument after --value"
    else if args.operations.length = 0 then .error noOpsMsg
    else .ok args
  | a :: rest, args, nk, nv =>
    if nk then
      ParseArgumentsAux rest ⟨args.operations, a, true, args.value, args.value_valid⟩ false nv
    else if nv then
      ParseArgumentsAux rest ⟨args.operations, args.key, args.key_valid, a, true⟩ nk false
    else if a = "read" then
      ParseArgumentsAux rest
        ⟨args.operations ++ [Operation.kRead], args.key, args.key_valid, args.value, args.value_valid⟩
        nk nv
    else if a = "write" then
      ParseArgumentsAux rest
        ⟨args.operations ++ [Operation.kWrite], args.key, args.key_valid, args.value, args.value_valid⟩
        nk nv
    else if a = "--key" then ParseArgumentsAux rest args true nv
    else if a = "--value" then ParseArgumentsAux rest args nk true
    else .error ("invalid argument: " ++ a ++ " (must be either \"read\" or \"write\")")

/-- `ParseArguments` from the flag-configurable variant, starting from a
default-initialized `ParsedArguments` and cleared payload flags. -/
def ParseArguments (argv : List String) : Except String ParsedArguments :=
  ParseArgumentsAux argv ⟨[], "", false, "", false⟩ false false

/-- The separator line the flag-configurable variant's `DoRead` / `DoWrite`
print first. -/
def separatorLine : String := "======================================="

namespace Flagged

/-- Log lines of the flag-configurable variant's `DoRead`. -/
def doReadLog (o : Outcome) (path : String) : List String :=
  separatorLine
    :: ("DoRead() doc=" ++ path)
    :: (awaitLog "DocumentReference.Get()" o
        ++ ("Document num key/value pairs: " ++ toString o.data.length)
           :: entriesLogFrom o.data 0)

/-- Log lines of the flag-configurable variant's `DoWrite`. -/
def doWriteLog (o : Outcome) (path key value : String) : List String :=
  separatorLine
    :: ("DoWrite() doc=" ++ path ++ " setting " ++ key ++ "=" ++ value)
    :: awaitLog "DocumentReference.Set()" o

/-- One `case` of the flag-configurable variant's `switch`: the write case
chooses the key and value from the parsed arguments, falling back to
`"TestKey"` / `"TestValue"` exactly as in the source. -/
def execTag (tag : Int) (o : Outcome) (path : String) (args : ParsedArguments) :
    Option (List String × List Request) :=
  if tag = 0 then some (doReadLog o path, [Request.get])
  else if tag = 1 then
    let key := if args.key_valid then args.key else "TestKey"
    let value := if args.value_valid then args.value else "TestValue"
    some (doWriteLog o path key value, [Request.set [(key, FieldValue.String value)]])
  else none

/-- The operation loop of the flag-configurable variant's `main`. -/
def runTags : List Int → (Nat → Outcome) → Nat → String → ParsedArguments → RunResult
  | [], _, _, _, _ => ⟨[], [], 0⟩
  | tag :: rest, oracle, i, path, args =>
    match Flagged.execTag tag (oracle i) path args with
    | none => ⟨["INTERNAL ERROR: unknown value for operation: " ++ toString tag], [], 1⟩
    | some (l, reqs) =>
      let r := Flagged.runTags rest oracle (i + 1) path args
      ⟨l ++ r.log, reqs ++ r.requests, r.exitCode⟩

/-- `main` of the flag-configurable variant. -/
def mainRun (argv : List String) (appOk fsOk : Bool) (oracle : Nat → Outcome) : RunResult :=
  match ParseArguments argv with
  | .error msg => ⟨["ERROR: Invalid command-line arguments: " ++ msg], [], 2⟩
  | .ok args =>
    if appOk then
      if fsOk then
        let r := Flagged.runTags (args.operations.map Operation.toCInt) oracle 0 docPath args
        ⟨"Creating firebase::App"
           :: "Creating firebase::firestore::Firestore"
           :: ("Performing " ++ toString args.operations.length
                ++ " operations on document: " ++ docPath)
           :: r.log,
         r.requests, r.exitCode⟩
      else
        ⟨["Creating firebase::App", "Creating firebase::firestore::Firestore",
          "ERROR: Creating firebase::firestore::Firestore FAILED!"], [], 1⟩
    else
      ⟨["Creating firebase::App", "ERROR: Creating firebase::App FAILED!"], [], 1⟩

end Flagged

/-! ### The blocking completion adapter

`AwaitableFutureCompletion` registers `OnCompletion` (which notifies the
shared condition variable) on the future, and `AwaitInvoked` runs
`condition_.wait(lock, pred)` with the predicate
`future_.status() != kFutureStatusPending`, i.e. the loop
`while (!pred()) wait(lock);`.

Time is modelled by natural-number instants.  The future's completion time
(`none` if the callback never fires) determines both the status history —
pending strictly before the completion instant, completed from it on, the
single irreversible transition of the data model — and the one notification
`OnCompletion` delivers.  `cvWaitPred` models the predicate form of
`condition_variable::wait`: the predicate is checked under the lock before
any blocking, and again at each notification; notifications at or before the
entry instant are lost (that is the lost-wakeup hazard the predicate recheck
guards against). -/

/-- Status of a `FutureBase`, collapsed to the pending / non-pending
distinction the adapter's predicate tests. -/
inductive FutureStatus where
  | pending
  | complete
deriving DecidableEq, BEq, Repr

/-- Status history of a future with the given completion instant. -/
def futureStatus (completion : Option Nat) (t : Nat) : FutureStatus :=
  match completion with
  | none => .pending
  | some tc => if t < tc then .pending else .complete

/-- Instants at which `OnCompletion` notifies the shared condition variable:
exactly one notification, at the completion instant, if the future ever
completes. -/
def notifications (completion : Option Nat) : List Nat :=
  match completion with
  | none => []
  | some tc => [tc]

/-- `condition_variable::wait(lock, pred)` over an ascending list of future
notification instants, entered at instant `t0`: return immediately if the
predicate already holds, otherwise sleep until a notification strictly after
the current instant and recheck; return `none` (block forever) if the
notifications are exhausted with the predicate still false. -/
def cvWaitPred (pred : Nat → Bool) : List Nat → Nat → Option Nat
  | [], t0 => if pred t0 then some t0 else none
  | s :: rest, t0 =>
    if pred t0 then some t0
    else if t0 < s then
      if pred s then some s else cvWaitPred pred rest s
    else cvWaitPred pred rest t0

/-- `AwaitableFutureCompletion::AwaitInvoked` entered at instant `t0` on a
future with the given completion instant: the wait with the predicate
`status() != kFutureStatusPending`, woken by `OnCompletion`'s
notification. -/
def AwaitInvoked (completion : Option Nat) (t0 : Nat) : Option Nat :=
  cvWaitPred (fun t => futureStatus completion t != FutureStatus.pending)
    (notifications completion) t0

/-! ### General helper lemmas -/

/-- Indexing into the left part of a string append. -/
lemma strGetElem (a b : String) (i : Nat) (c : Char) (h : a.data[i]? = some c) :
    (a ++ b).data[i]? = some c := by
  have hi : i < a.data.length := by
    by_contra hn
    rw [List.getElem?_eq_none (Nat.le_of_not_lt hn)] at h
    exact Option.noConfusion h
  rw [String.data_append, List.getElem?_append, if_pos hi]
  exact h

/-- Two strings differing at some character position are `==`-false. -/
lemma strNe (s t : String) (i : Nat) (c d : Char) (hs : s.data[i]? = some c)
    (ht : t.data[i]? = some d) (hcd : c ≠ d) : (s == t) = false := by
  apply beq_eq_false_iff_ne.mpr
  intro h
  rw [h, ht] at hs
  exact hcd (Option.some.inj hs).symm

/-- Two strings of different lengths are `==`-false. -/
lemma strNeLen (s t : String) (h : s.length ≠ t.length) : (s == t) = false := by
  apply beq_eq_false_iff_ne.mpr
  intro he
  exact h (congrArg String.length he)

/-- The decimal rendering of a natural number is never the empty string. -/
lemma natReprLenPos (n : Nat) : 0 < (Nat.repr n).length := by
  show 0 < (Nat.toDigits 10 n).asString.length
  have hlen : (Nat.toDigits 10 n).asString.length = (Nat.toDigits 10 n).length := rfl
  rw [hlen]
  unfold Nat.toDigits
  simp only [Nat.toDigitsCore]
  by_cases h : n / 10 = 0
  · simp [h]
  · simp only [h, if_false]
    rw [Nat.toDigitsCore_lens_eq]
    omega

/-- The decimal rendering of an integer is never the empty string. -/
lemma intToStringLenPos (i : Int) : 0 < (toString i).length := by
  cases i with
  | ofNat m => exact natReprLenPos m
  | negSucc m =>
    show 0 < ("-" ++ toString (m + 1)).length
    rw [String.length_append]
    have := natReprLenPos (m + 1)
    simp only [toString] at *
    omega

/-- `std::to_string` of an integer is a non-empty string. -/
lemma intToStringNeEmpty (i : Int) : toString i ≠ "" := by
  intro h
  have := intToStringLenPos i
  rw [h] at this
  simp at this

/-! ### C5 -/

/-- C5: the empty argument list is always a parse failure (with the
dedicated no-arguments message), and a successful parse never returns an
empty operation list. -/
theorem c5_empty_args_rejected :
    ParseOperations [] = .error noOpsMsg
    ∧ ∀ (argv : List String) (ops : List Operation),
        ParseOperations argv = .ok ops → ops ≠ [] := by
  constructor
  · rfl
  · intro argv ops h
    unfold ParseOperations at h
    cases haux : ParseOperationsAux argv with
    | error e =>
      simp only [haux] at h
      exact Except.noConfusion h
    | ok l =>
      simp only [haux] at h
      by_cases hl : l.length = 0
      · rw [if_pos hl] at h
        exact Except.noConfusion h
      · rw [if_neg hl] at h
        injection h with h2
        intro hnil
        apply hl
        rw [h2, hnil]
        rfl

/-- Witness for C5 at the concrete input `["read"]`. -/
theorem c5_empty_args_rejected_witness :
    ParseOperations ["read"] = .ok [Operation.kRead]
    ∧ ([Operation.kRead] : List Operation) ≠ [] :=
  ⟨rfl, c5_empty_args_rejected.2 ["read"] [Operation.kRead] rfl⟩

/-! ### C6 -/

/-- The adapter's wait predicate holds exactly from the completion instant
on. -/
lemma futureStatusBne (tc t : Nat) :
    (futureStatus (some tc) t != FutureStatus.pending) = decide (tc ≤ t) := by
  simp only [futureStatus]
  by_cases h : t < tc
  · rw [if_pos h, decide_eq_false (by omega : ¬ tc ≤ t)]
    rfl
  · rw [if_neg h, decide_eq_true (by omega : tc ≤ t)]
    rfl

/-- C6: whenever the completion callback fires (at any instant `tc`), the
blocking wait entered at any instant `t0` returns, at instant `max t0 tc`;
in particular when the callback fires before the wait is entered
(`tc ≤ t0`, the lost-wakeup case: the only notification is never observed)
the wait still returns immediately, because the predicate is rechecked
under the lock. -/
theorem c6_await_no_lost_wakeup :
    ∀ (tc t0 : Nat), AwaitInvoked (some tc) t0 = some (max t0 tc) := by
  intro tc t0
  unfold AwaitInvoked notifications
  show cvWaitPred _ [tc] t0 = _
  simp only [cvWaitPred, futureStatusBne]
  by_cases h : tc ≤ t0
  · simp [decide_eq_true h, Nat.max_eq_left h]
  · have h1 : t0 < tc := by omega
    simp [decide_eq_false h, h1, decide_eq_true (le_refl tc), Nat.max_eq_right (le_of_lt h1)]

/-! ### C7 -/

/-- Any code outside the table falls through to the decimal rendering. -/
lemma namerFallback : ∀ e : Int, e < 0 ∨ 16 < e → FirestoreErrorNameFromErrorCode e = toString e := by
  intro e he
  unfold FirestoreErrorNameFromErrorCode
  rw [if_neg (by omega : ¬ e = 0), if_neg (by omega : ¬ e = 1),
    if_neg (by omega : ¬ e = 2), if_neg (by omega : ¬ e = 3),
    if_neg (by omega : ¬ e = 4), if_neg (by omega : ¬ e = 5),
    if_neg (by omega : ¬ e = 6), if_neg (by omega : ¬ e = 7),
    if_neg (by omega : ¬ e = 8), if_neg (by omega : ¬ e = 9),
    if_neg (by omega : ¬ e = 10), if_neg (by omega : ¬ e = 11),
    if_neg (by omega : ¬ e = 12), if_neg (by omega : ¬ e = 13),
    if_neg (by omega : ¬ e = 14), if_neg (by omega : ¬ e = 15),
    if_neg (by omega : ¬ e = 16)]

/-- C7: the error-code namer is a total pure function: it returns a
non-empty string on every integer input, maps each of the seventeen known
error codes to its fixed symbolic name, and renders every other integer as
its decimal value. -/
theorem c7_error_namer_total :
    (∀ e : Int, FirestoreErrorNameFromErrorCode e ≠ "")
    ∧ (∀ e : Int, e < 0 ∨ 16 < e → FirestoreErrorNameFromErrorCode e = toString e)
    ∧ (FirestoreErrorNameFromErrorCode 0 = "kErrorOk"
       ∧ FirestoreErrorNameFromErrorCode 1 = "kErrorCancelled"
       ∧ FirestoreErrorNameFromErrorCode 2 = "kErrorUnknown"
       ∧ FirestoreErrorNameFromErrorCode 3 = "kErrorInvalidArgument"
       ∧ FirestoreErrorNameFromErrorCode 4 = "kErrorDeadlineExceeded"
       ∧ FirestoreErrorNameFromErrorCode 5 = "kErrorNotFound"
       ∧ FirestoreErrorNameFromErrorCode 6 = "kErrorAlreadyExists"
       ∧ FirestoreErrorNameFromErrorCode 7 = "kErrorPermissionDenied"
       ∧ FirestoreErrorNameFromErrorCode 8 = "kErrorResourceExhausted"
       ∧ FirestoreErrorNameFromErrorCode 9 = "kErrorFailedPrecondition"
       ∧ FirestoreErrorNameFromErrorCode 10 = "kErrorAborted"
       ∧ FirestoreErrorNameFromErrorCode 11 = "kErrorOutOfRange"
       ∧ FirestoreErrorNameFromErrorCode 12 = "kErrorUnimplemented"
       ∧ FirestoreErrorNameFromErrorCode 13 = "kErrorInternal"
       ∧ FirestoreErrorNameFromErrorCode 14 = "kErrorUnavailable"
       ∧ FirestoreErrorNameFromErrorCode 15 = "kErrorDataLoss"
       ∧ FirestoreErrorNameFromErrorCode 16 = "kErrorUnauthenticated") := by
  refine ⟨?_, namerFallback, ?_⟩
  · intro e
    by_cases hlo : e < 0
    · rw [namerFallback e (Or.inl hlo)]
      exact intToStringNeEmpty e
    by_cases hhi : 16 < e
    · rw [namerFallback e (Or.inr hhi)]
      exact intToStringNeEmpty e
    · have h0 : 0 ≤ e := by omega
      have h16 : e ≤ 16 := by omega
      interval_cases e <;> decide
  · exact ⟨rfl, rfl, rfl, rfl, rfl, rfl, rfl, rfl, rfl, rfl, rfl, rfl, rfl, rfl, rfl, rfl, rfl⟩

/-- Witness for C7: the fallback branch at the concrete out-of-table
code 99. -/
theorem c7_error_namer_total_witness :
    FirestoreErrorNameFromErrorCode 99 = toString (99 : Int) :=
  c7_error_namer_total.2.1 99 (Or.inr (by decide))

/-! ### C1 -/

/-- The operation a valid token parses to (the success projection of
`parseOp`). -/
def opOfToken (t : String) : Operation :=
  if t = "read" then Operation.kRead else Operation.kWrite

/-- On a command line of valid tokens, the parse loop returns the tokens
mapped to operations. -/
lemma parseOperationsAuxValid (argv : List String)
    (h : ∀ t ∈ argv, t = "read" ∨ t = "write") :
    ParseOperationsAux argv = .ok (argv.map opOfToken) := by
  induction argv with
  | nil => rfl
  | cons a rest ih =>
    have ha := h a (List.mem_cons_self a rest)
    have hrest : ∀ t ∈ rest, t = "read" ∨ t = "write" :=
      fun t ht => h t (List.mem_cons_of_mem a ht)
    rcases ha with h1 | h1 <;> subst h1
    · have hstep : ParseOperationsAux ("read" :: rest)
          = match ParseOperationsAux rest with
            | .error e => .error e
            | .ok ops => .ok (Operation.kRead :: ops) := rfl
      rw [hstep, ih hrest]
      rfl
    · have hstep : ParseOperationsAux ("write" :: rest)
          = match ParseOperationsAux rest with
            | .error e => .error e
            | .ok ops => .ok (Operation.kWrite :: ops) := rfl
      rw [hstep, ih hrest]
      rfl

/-- A command line containing an invalid token makes the parse loop fail,
with the message naming the first invalid token. -/
lemma parseOperationsAuxBad : ∀ (argv : List String) (t : String),
    t ∈ argv → t ≠ "read" → t ≠ "write" →
    ∃ u, u ∈ argv ∧ u ≠ "read" ∧ u ≠ "write" ∧
      ParseOperationsAux argv
        = .error ("invalid argument: " ++ u ++ " (must be either \"read\" or \"write\")") := by
  intro argv
  induction argv with
  | nil =>
    intro t ht
    exact absurd ht (List.not_mem_nil t)
  | cons a rest ih =>
    intro t ht hr hw
    by_cases har : a = "read"
    · have htr : t ∈ rest := by
        rcases List.mem_cons.mp ht with h1 | h1
        · subst h1; exact absurd har hr
        · exact h1
      obtain ⟨u, hu, hur, huw, herr⟩ := ih t htr hr hw
      refine ⟨u, List.mem_cons_of_mem a hu, hur, huw, ?_⟩
      subst har
      have hstep : ParseOperationsAux ("read" :: rest)
          = match ParseOperationsAux rest with
            | .error e => .error e
            | .ok ops => .ok (Operation.kRead :: ops) := rfl
      rw [hstep, herr]
    · by_cases haw : a = "write"
      · have htr : t ∈ rest := by
          rcases List.mem_cons.mp ht with h1 | h1
          · subst h1; exact absurd haw hw
          · exact h1
        obtain ⟨u, hu, hur, huw, herr⟩ := ih t htr hr hw
        refine ⟨u, List.mem_cons_of_mem a hu, hur, huw, ?_⟩
        subst haw
        have hstep : ParseOperationsAux ("write" :: rest)
            = match ParseOperationsAux rest with
              | .error e => .error e
              | .ok ops => .ok (Operation.kWrite :: ops) := rfl
        rw [hstep, herr]
      · refine ⟨a, List.mem_cons_self a rest, har, haw, ?_⟩
        have hpa : parseOp a
            = .error ("invalid argument: " ++ a ++ " (must be either \"read\" or \"write\")") := by
          unfold parseOp
          rw [if_neg har, if_neg haw]
        simp only [ParseOperationsAux, hpa]

/-- `ParseOperations` on a non-empty command line of valid tokens. -/
lemma parseOperationsValid (argv : List String) (hne : argv ≠ [])
    (h : ∀ t ∈ argv, t = "read" ∨ t = "write") :
    ParseOperations argv = .ok (argv.map opOfToken) := by
  unfold ParseOperations
  simp only [parseOperationsAuxValid argv h]
  rw [if_neg]
  intro hlen
  exact hne (List.length_eq_zero.mp (by simpa using hlen))

/-- C1: a non-empty command line of `read` / `write` tokens parses to an
operation list of the same length, elementwise `kRead` exactly at `read`
tokens and `kWrite` exactly at `write` tokens; and a command line
containing any other token fails with the usage message naming the (first
such) offending token. -/
theorem c1_parse_tokens :
    (∀ argv : List String, argv ≠ [] → (∀ t ∈ argv, t = "read" ∨ t = "write") →
      ∃ ops : List Operation, ParseOperations argv = .ok ops ∧ ops.length = argv.length ∧
        ∀ (i : Nat) (hi : i < argv.length) (ho : i < ops.length),
          (ops.get ⟨i, ho⟩ = Operation.kRead ↔ argv.get ⟨i, hi⟩ = "read") ∧
          (ops.get ⟨i, ho⟩ = Operation.kWrite ↔ argv.get ⟨i, hi⟩ = "write"))
    ∧ (∀ (argv : List String) (t : String), t ∈ argv → t ≠ "read" → t ≠ "write" →
      ∃ u msg, u ∈ argv ∧ u ≠ "read" ∧ u ≠ "write" ∧ ParseOperations argv = .error msg ∧
        msg = "invalid argument: " ++ u ++ " (must be either \"read\" or \"write\")") := by
  constructor
  · intro argv hne h
    refine ⟨argv.map opOfToken, parseOperationsValid argv hne h, List.length_map _ _, ?_⟩
    intro i hi ho
    have hget : (argv.map opOfToken).get ⟨i, ho⟩ = opOfToken (argv.get ⟨i, hi⟩) := by
      simp
    rw [hget]
    have htok := h (argv.get ⟨i, hi⟩) (argv.get_mem i hi)
    rcases htok with h1 | h1 <;> rw [h1] <;> decide
  · intro argv t ht hr hw
    obtain ⟨u, hu, hur, huw, herr⟩ := parseOperationsAuxBad argv t ht hr hw
    refine ⟨u, _, hu, hur, huw, ?_, rfl⟩
    unfold ParseOperations
    simp only [herr]

/-- Witness for C1 at the concrete inputs `["read", "write"]` (success) and
`["oops"]` (failure naming the token). -/
theorem c1_parse_tokens_witness :
    (∃ ops : List Operation, ParseOperations ["read", "write"] = .ok ops
      ∧ ops.length = (["read", "write"] : List String).length
      ∧ ∀ (i : Nat) (hi : i < (["read", "write"] : List String).length) (ho : i < ops.length),
          (ops.get ⟨i, ho⟩ = Operation.kRead ↔ (["read", "write"] : List String).get ⟨i, hi⟩ = "read")
          ∧ (ops.get ⟨i, ho⟩ = Operation.kWrite ↔ (["read", "write"] : List String).get ⟨i, hi⟩ = "write"))
    ∧ (∃ u msg, u ∈ ["oops"] ∧ u ≠ "read" ∧ u ≠ "write" ∧ ParseOperations ["oops"] = .error msg ∧
        msg = "invalid argument: " ++ u ++ " (must be either \"read\" or \"write\")") :=
  ⟨c1_parse_tokens.1 ["read", "write"] (by decide) (by decide),
   c1_parse_tokens.2 ["oops"] "oops" (by decide) (by decide) (by decide)⟩

/-! ### The operation loop on parser-produced tags -/

/-- Unfolding the loop at a read operation. -/
lemma runTagsConsRead (rest : List Operation) (oracle : Nat → Outcome) (i : Nat) (path : String) :
    runTags ((Operation.kRead :: rest).map Operation.toCInt) oracle i path
      = ⟨doReadLog (oracle i) path ++ (runTags (rest.map Operation.toCInt) oracle (i + 1) path).log,
         Request.get :: (runTags (rest.map Operation.toCInt) oracle (i + 1) path).requests,
         (runTags (rest.map Operation.toCInt) oracle (i + 1) path).exitCode⟩ := rfl

/-- Unfolding the loop at a write operation. -/
lemma runTagsConsWrite (rest : List Operation) (oracle : Nat → Outcome) (i : Nat) (path : String) :
    runTags ((Operation.kWrite :: rest).map Operation.toCInt) oracle i path
      = ⟨doWriteLog (oracle i) path ++ (runTags (rest.map Operation.toCInt) oracle (i + 1) path).log,
         Request.set writeFields :: (runTags (rest.map Operation.toCInt) oracle (i + 1) path).requests,
         (runTags (rest.map Operation.toCInt) oracle (i + 1) path).exitCode⟩ := rfl

/-- On tags produced by the parser the loop always finishes with exit
code 0: the `default` branch is never taken. -/
lemma runTagsMapExit : ∀ (ops : List Operation) (oracle : Nat → Outcome) (i : Nat) (path : String),
    (runTags (ops.map Operation.toCInt) oracle i path).exitCode = 0 := by
  intro ops
  induction ops with
  | nil => intro oracle i path; rfl
  | cons op rest ih =>
    intro oracle i path
    cases op with
    | kRead => rw [runTagsConsRead]; exact ih oracle (i + 1) path
    | kWrite => rw [runTagsConsWrite]; exact ih oracle (i + 1) path

/-- Every request the loop issues is a get or the fixed-payload set. -/
lemma runTagsMapRequests : ∀ (ops : List Operation) (oracle : Nat → Outcome) (i : Nat) (path : String),
    ∀ req ∈ (runTags (ops.map Operation.toCInt) oracle i path).requests,
      req = Request.get ∨ req = Request.set writeFields := by
  intro ops
  induction ops with
  | nil =>
    intro oracle i path req hreq
    exact absurd hreq (List.not_mem_nil req)
  | cons op rest ih =>
    intro oracle i path req hreq
    cases op with
    | kRead =>
      rw [runTagsConsRead] at hreq
      rcases List.mem_cons.mp hreq with h1 | h1
      · exact Or.inl h1
      · exact ih oracle (i + 1) path req h1
    | kWrite =>
      rw [runTagsConsWrite] at hreq
      rcases List.mem_cons.mp hreq with h1 | h1
      · exact Or.inr h1
      · exact ih oracle (i + 1) path req h1

/-! ### C4 -/

/-- C4: the exit status is 2 exactly on invalid command lines, 0 whenever
parsing and both setup steps succeed (for every oracle, hence regardless of
individual operation failures), and 1 when app or firestore creation
fails. -/
theorem c4_exit_codes :
    ∀ (argv : List String) (appOk fsOk : Bool) (oracle : Nat → Outcome),
      (∀ msg, ParseOperations argv = .error msg →
        (mainRun argv appOk fsOk oracle).exitCode = 2)
      ∧ (∀ ops, ParseOperations argv = .ok ops → appOk = true → fsOk = true →
        (mainRun argv appOk fsOk oracle).exitCode = 0)
      ∧ (∀ ops, ParseOperations argv = .ok ops → (appOk = false ∨ fsOk = false) →
        (mainRun argv appOk fsOk oracle).exitCode = 1) := by
  intro argv appOk fsOk oracle
  refine ⟨?_, ?_, ?_⟩
  · intro msg h
    unfold mainRun
    simp only [h]
  · intro ops h ha hf
    subst ha
    subst hf
    unfold mainRun
    simp only [h, if_true]
    exact runTagsMapExit ops oracle 0 docPath
  · intro ops h hor
    unfold mainRun
    simp only [h]
    rcases hor with h1 | h1 <;> subst h1
    · simp
    · cases appOk <;> simp

/-- Witness for C4 at concrete inputs covering all three exit codes. -/
theorem c4_exit_codes_witness :
    (mainRun ["bogus"] true true (fun _ => ⟨0, "", []⟩)).exitCode = 2
    ∧ (mainRun ["read", "write"] true true (fun _ => ⟨4, "deadline", []⟩)).exitCode = 0
    ∧ (mainRun ["read"] false true (fun _ => ⟨0, "", []⟩)).exitCode = 1 :=
  ⟨(c4_exit_codes ["bogus"] true true _).1 _ rfl,
   (c4_exit_codes ["read", "write"] true true _).2.1 [Operation.kRead, Operation.kWrite] rfl rfl rfl,
   (c4_exit_codes ["read"] false true _).2.2 [Operation.kRead] rfl (Or.inl rfl)⟩

/-! ### C9 -/

/-- C9: on every command line, with any setup result and any oracle, every
request the fixed-payload variant issues is either a get or a set of
exactly the single field `"meaning" = Integer 42`; in particular no
command-line token can alter the written key or value. -/
theorem c9_fixed_write_payload :
    ∀ (argv : List String) (appOk fsOk : Bool) (oracle : Nat → Outcome),
      ∀ req ∈ (mainRun argv appOk fsOk oracle).requests,
        req = Request.get ∨ req = Request.set [("meaning", FieldValue.Integer 42)] := by
  intro argv appOk fsOk oracle req hreq
  unfold mainRun at hreq
  cases h : ParseOperations argv with
  | error msg =>
    simp only [h] at hreq
    exact absurd hreq (List.not_mem_nil req)
  | ok ops =>
    simp only [h] at hreq
    cases appOk with
    | false =>
      simp only [Bool.false_eq_true, if_false] at hreq
      exact absurd hreq (List.not_mem_nil req)
    | true =>
      cases fsOk with
      | false =>
        simp only [Bool.false_eq_true, if_true, if_false] at hreq
        exact absurd hreq (List.not_mem_nil req)
      | true =>
        simp only [if_true] at hreq
        exact runTagsMapRequests ops oracle 0 docPath req hreq

/-- Witness for C9: the single request of the run on `["write"]` is the
fixed-payload set. -/
theorem c9_fixed_write_payload_witness :
    Request.set [("meaning", FieldValue.Integer 42)]
        ∈ (mainRun ["write"] true true (fun _ => ⟨0, "", []⟩)).requests
    ∧ (Request.set [("meaning", FieldValue.Integer 42)] = Request.get
       ∨ Request.set [("meaning", FieldValue.Integer 42)]
           = Request.set [("meaning", FieldValue.Integer 42)]) :=
  ⟨by decide,
   c9_fixed_write_payload ["write"] true true (fun _ => ⟨0, "", []⟩) _ (by decide)⟩

/-! ### C3 -/

/-- The enumeration loop renders exactly the fields, 1-indexed in order. -/
lemma entriesEnum : ∀ (data : List (String × FieldValue)) (i : Nat),
    entriesLogFrom data i
      = (List.enumFrom i data).map fun p =>
          "Entry #" ++ toString (p.1 + 1) ++ ": " ++ p.2.1 ++ "=" ++ renderFieldValue p.2.2 := by
  intro data
  induction data with
  | nil => intro i; rfl
  | cons kv rest ih =>
    intro i
    cases kv with
    | mk k v => simp [entriesLogFrom, List.enumFrom, ih (i + 1)]

/-- Counterexample to C3 as stated: on a non-Ok completion (`kErrorNotFound`)
`DoRead` logs the FAILED line and nevertheless also logs the field count and
the field enumeration of the result record. -/
theorem c3_read_logging_counterexample :
    (⟨5, "kaboom", [("a", FieldValue.Integer 1)]⟩ : Outcome).error ≠ 0
    ∧ "DocumentReference.Get() FAILED: kErrorNotFound kaboom"
        ∈ doReadLog ⟨5, "kaboom", [("a", FieldValue.Integer 1)]⟩ "p"
    ∧ "Document # key/value pairs: 1"
        ∈ doReadLog ⟨5, "kaboom", [("a", FieldValue.Integer 1)]⟩ "p"
    ∧ "Entry #1: a=1" ∈ doReadLog ⟨5, "kaboom", [("a", FieldValue.Integer 1)]⟩ "p" := by
  decide

/-- C3 (amended): on an Ok completion `DoRead` logs the field count and each
field 1-indexed in order; on a non-Ok completion it logs the error code's
symbolic name and the message text and then still, unconditionally, logs the
same field count and enumeration of the record it obtains from the
future. -/
theorem c3_read_logging_amended :
    ∀ (o : Outcome) (path : String),
      (o.error = 0 → doReadLog o path
        = ["*** DoRead() doc=" ++ path,
           "DocumentReference.Get() start",
           "DocumentReference.Get() done",
           "Document # key/value pairs: " ++ toString o.data.length]
          ++ (o.data.enum.map fun p =>
               "Entry #" ++ toString (p.1 + 1) ++ ": " ++ p.2.1 ++ "=" ++ renderFieldValue p.2.2))
      ∧ (o.error ≠ 0 → doReadLog o path
        = ["*** DoRead() doc=" ++ path,
           "DocumentReference.Get() start",
           "DocumentReference.Get() FAILED: "
             ++ FirestoreErrorNameFromErrorCode o.error ++ " " ++ o.errorMessage,
           "Document # key/value pairs: " ++ toString o.data.length]
          ++ (o.data.enum.map fun p =>
               "Entry #" ++ toString (p.1 + 1) ++ ": " ++ p.2.1 ++ "=" ++ renderFieldValue p.2.2)) := by
  intro o path
  have hent : entriesLogFrom o.data 0
      = o.data.enum.map fun p =>
          "Entry #" ++ toString (p.1 + 1) ++ ": " ++ p.2.1 ++ "=" ++ renderFieldValue p.2.2 := by
    rw [entriesEnum]
    rfl
  constructor
  · intro h
    unfold doReadLog awaitLog
    rw [if_neg (by simp [h] : ¬ o.error ≠ 0), hent]
    rfl
  · intro h
    unfold doReadLog awaitLog
    rw [if_pos h, hent]
    rfl

/-- Witness for C3 (amended) at one Ok and one failed concrete outcome. -/
theorem c3_read_logging_amended_witness :
    doReadLog ⟨0, "", [("k", FieldValue.String "v")]⟩ "p"
      = ["*** DoRead() doc=p", "DocumentReference.Get() start", "DocumentReference.Get() done",
         "Document # key/value pairs: 1", "Entry #1: k=v"]
    ∧ doReadLog ⟨5, "kaboom", []⟩ "p"
      = ["*** DoRead() doc=p", "DocumentReference.Get() start",
         "DocumentReference.Get() FAILED: kErrorNotFound kaboom",
         "Document # key/value pairs: 0"] :=
  ⟨((c3_read_logging_amended ⟨0, "", [("k", FieldValue.String "v")]⟩ "p").1 rfl).trans (by decide),
   ((c3_read_logging_amended ⟨5, "kaboom", []⟩ "p").2 (by decide)).trans (by decide)⟩

/-! ### C10 -/

/-- A line whose first character is known and not `I` passes the
no-internal-error check. -/
lemma bneOfNe (s : String) (c : Char) (h : s.data[0]? = some c) (hc : c ≠ 'I') :
    (s.data[0]? != some 'I') = true := by
  rw [h]
  simp [hc]

/-- Both await lines start with the first character of the operation
name. -/
lemma awaitLogHead (name : String) (o : Outcome) (c : Char) (hc : name.data[0]? = some c) :
    ∀ s ∈ awaitLog name o, s.data[0]? = some c := by
  intro s hs
  unfold awaitLog at hs
  rcases List.mem_cons.mp hs with h1 | h1
  · subst h1
    exact strGetElem name " start" 0 c hc
  · rw [List.mem_singleton] at h1
    subst h1
    by_cases he : o.error ≠ 0
    · rw [if_pos he]
      exact strGetElem _ _ 0 c (strGetElem _ _ 0 c (strGetElem _ _ 0 c (strGetElem name _ 0 c hc)))
    · rw [if_neg he]
      exact strGetElem name " done" 0 c hc

/-- Every field-enumeration line starts with `E`. -/
lemma entriesHead : ∀ (data : List (String × FieldValue)) (i : Nat) (s : String),
    s ∈ entriesLogFrom data i → s.data[0]? = some 'E' := by
  intro data
  induction data with
  | nil =>
    intro i s hs
    exact absurd hs (List.not_mem_nil s)
  | cons kv rest ih =>
    intro i s hs
    cases kv with
    | mk k v =>
      simp only [entriesLogFrom] at hs
      rcases List.mem_cons.mp hs with h1 | h1
      · subst h1
        exact strGetElem _ _ 0 'E' (strGetElem _ _ 0 'E' (strGetElem _ _ 0 'E'
          (strGetElem _ _ 0 'E' (strGetElem "Entry #" _ 0 'E' (by decide)))))
      · exact ih (i + 1) s h1

/-- No `DoRead` log line starts with `I`. -/
lemma doReadNoI (o : Outcome) (path : String) :
    ∀ s ∈ doReadLog o path, (s.data[0]? != some 'I') = true := by
  intro s hs
  simp only [doReadLog] at hs
  rcases List.mem_cons.mp hs with h1 | h1
  · subst h1
    exact bneOfNe _ '*' (strGetElem "*** DoRead() doc=" path 0 '*' (by decide)) (by decide)
  · rcases List.mem_append.mp h1 with h2 | h2
    · exact bneOfNe _ 'D' (awaitLogHead "DocumentReference.Get()" o 'D' (by decide) s h2) (by decide)
    · rcases List.mem_cons.mp h2 with h3 | h3
      · subst h3
        exact bneOfNe _ 'D' (strGetElem "Document # key/value pairs: " _ 0 'D' (by decide)) (by decide)
      · exact bneOfNe _ 'E' (entriesHead o.data 0 s h3) (by decide)

/-- No `DoWrite` log line starts with `I`. -/
lemma doWriteNoI (o : Outcome) (path : String) :
    ∀ s ∈ doWriteLog o path, (s.data[0]? != some 'I') = true := by
  intro s hs
  simp only [doWriteLog] at hs
  rcases List.mem_cons.mp hs with h1 | h1
  · subst h1
    exact bneOfNe _ '*' (strGetElem "*** DoWrite() doc=" path 0 '*' (by decide)) (by decide)
  · exact bneOfNe _ 'D' (awaitLogHead "DocumentReference.Set()" o 'D' (by decide) s h1) (by decide)

/-- On parser-produced tags the loop's log never contains a line starting
with `I`. -/
lemma runTagsNoI : ∀ (ops : List Operation) (oracle : Nat → Outcome) (i : Nat) (path : String),
    ∀ s ∈ (runTags (ops.map Operation.toCInt) oracle i path).log,
      (s.data[0]? != some 'I') = true := by
  intro ops
  induction ops with
  | nil =>
    intro oracle i path s hs
    exact absurd hs (List.not_mem_nil s)
  | cons op rest ih =>
    intro oracle i path s hs
    cases op with
    | kRead =>
      rw [runTagsConsRead] at hs
      rcases List.mem_append.mp hs with h1 | h1
      · exact doReadNoI (oracle i) path s h1
      · exact ih oracle (i + 1) path s h1
    | kWrite =>
      rw [runTagsConsWrite] at hs
      rcases List.mem_append.mp hs with h1 | h1
      · exact doWriteNoI (oracle i) path s h1
      · exact ih oracle (i + 1) path s h1

/-- C10: the `default` (internal error) branch of the dispatch is
unreachable: the parser produces only the tags 0 and 1, both handled by a
dedicated `case`; and — since the internal-error message is the only log
line starting with `I` — no run of the program, whatever the command line,
setup results and oracle, ever logs a line starting with `I`. -/
theorem c10_internal_error_unreachable :
    (∀ op : Operation, op.toCInt = 0 ∨ op.toCInt = 1)
    ∧ (∀ (op : Operation) (o : Outcome) (path : String),
        (execTag op.toCInt o path).isSome = true)
    ∧ (∀ tag : Int,
        ("INTERNAL ERROR: unknown value for operation: " ++ toString tag).data[0]? = some 'I')
    ∧ (∀ (argv : List String) (appOk fsOk : Bool) (oracle : Nat → Outcome),
        (mainRun argv appOk fsOk oracle).log.all (fun s => s.data[0]? != some 'I') = true) := by
  refine ⟨?_, ?_, ?_, ?_⟩
  · intro op
    cases op with
    | kRead => exact Or.inl rfl
    | kWrite => exact Or.inr rfl
  · intro op o path
    cases op with
    | kRead => rfl
    | kWrite => rfl
  · intro tag
    exact strGetElem "INTERNAL ERROR: unknown value for operation: " _ 0 'I' (by decide)
  · intro argv appOk fsOk oracle
    rw [List.all_eq_true]
    intro s hs
    unfold mainRun at hs
    cases h : ParseOperations argv with
    | error msg =>
      simp only [h] at hs
      rw [List.mem_singleton] at hs
      subst hs
      exact bneOfNe _ 'E' (strGetElem "ERROR: Invalid command-line arguments: " msg 0 'E' (by decide)) (by decide)
    | ok ops =>
      simp only [h] at hs
      cases appOk with
      | false =>
        simp only [Bool.false_eq_true, if_false] at hs
        rcases List.mem_cons.mp hs with h1 | h1
        · subst h1; decide
        · rw [List.mem_singleton] at h1; subst h1; decide
      | true =>
        cases fsOk with
        | false =>
          simp only [Bool.false_eq_true, if_true, if_false] at hs
          rcases List.mem_cons.mp hs with h1 | h1
          · subst h1; decide
          rcases List.mem_cons.mp h1 with h2 | h2
          · subst h2; decide
          · rw [List.mem_singleton] at h2; subst h2; decide
        | true =>
          simp only [if_true] at hs
          rcases List.mem_cons.mp hs with h1 | h1
          · subst h1; decide
          rcases List.mem_cons.mp h1 with h2 | h2
          · subst h2; decide
          rcases List.mem_cons.mp h2 with h3 | h3
          · subst h3
            exact bneOfNe _ 'P'
              (strGetElem _ docPath 0 'P' (strGetElem _ _ 0 'P'
                (strGetElem "Performing " _ 0 'P' (by decide)))) (by decide)
          · exact runTagsNoI ops oracle 0 docPath s h3

/-! ### C8 -/

/-- The issue line each operation logs first. -/
def issueLineOf (path : String) : Operation → String
  | .kRead => "*** DoRead() doc=" ++ path
  | .kWrite => "*** DoWrite() doc=" ++ path

/-- Recognizer for operation issue lines. -/
def isIssueLine (path : String) (s : String) : Bool :=
  s == "*** DoRead() doc=" ++ path || s == "*** DoWrite() doc=" ++ path

/-- The await start line each operation logs. -/
def startLineOf : Operation → String
  | .kRead => "DocumentReference.Get() start"
  | .kWrite => "DocumentReference.Set() start"

/-- Recognizer for await start lines. -/
def isStartLine (s : String) : Bool :=
  s == "DocumentReference.Get() start" || s == "DocumentReference.Set() start"

/-- A line not starting with `*` is not an issue line. -/
lemma isIssueFalseOfHead (path s : String) (c : Char) (h : s.data[0]? = some c)
    (hc : c ≠ '*') : isIssueLine path s = false := by
  unfold isIssueLine
  rw [strNe s ("*** DoRead() doc=" ++ path) 0 c '*' h
      (strGetElem "*** DoRead() doc=" path 0 '*' (by decide)) hc,
    strNe s ("*** DoWrite() doc=" ++ path) 0 c '*' h
      (strGetElem "*** DoWrite() doc=" path 0 '*' (by decide)) hc]
  rfl

/-- A line not starting with `D` is not a start line. -/
lemma isStartFalseOfHead (s : String) (c : Char) (h : s.data[0]? = some c)
    (hc : c ≠ 'D') : isStartLine s = false := by
  unfold isStartLine
  rw [strNe s "DocumentReference.Get() start" 0 c 'D' h (by decide) hc,
    strNe s "DocumentReference.Set() start" 0 c 'D' h (by decide) hc]
  rfl

/-- A line with `F` at position 24 (a FAILED await line) is not a start
line. -/
lemma isStartFalseAt24 (s : String) (h : s.data[24]? = some 'F') : isStartLine s = false := by
  unfold isStartLine
  rw [strNe s "DocumentReference.Get() start" 24 'F' 's' h (by decide) (by decide),
    strNe s "DocumentReference.Set() start" 24 'F' 's' h (by decide) (by decide)]
  rfl

/-- A line with a blank at position 8 (the field-count line) is not a start
line. -/
lemma isStartFalseAt8 (s : String) (h : s.data[8]? = some ' ') : isStartLine s = false := by
  unfold isStartLine
  rw [strNe s "DocumentReference.Get() start" 8 ' ' 'R' h (by decide) (by decide),
    strNe s "DocumentReference.Set() start" 8 ' ' 'R' h (by decide) (by decide)]
  rfl

/-- The await lines contain no issue line. -/
lemma awaitFilterIssue (name : String) (o : Outcome) (path : String) (c : Char)
    (hc : name.data[0]? = some c) (hne : c ≠ '*') :
    (awaitLog name o).filter (isIssueLine path) = [] := by
  rw [List.filter_eq_nil_iff]
  intro a ha
  rw [isIssueFalseOfHead path a c (awaitLogHead name o c hc a ha) hne]
  simp

/-- The field-enumeration lines contain no issue line. -/
lemma entriesFilterIssue (data : List (String × FieldValue)) (i : Nat) (path : String) :
    (entriesLogFrom data i).filter (isIssueLine path) = [] := by
  rw [List.filter_eq_nil_iff]
  intro a ha
  rw [isIssueFalseOfHead path a 'E' (entriesHead data i a ha) (by decide)]
  simp

/-- The field-enumeration lines contain no start line. -/
lemma entriesFilterStart (data : List (String × FieldValue)) (i : Nat) :
    (entriesLogFrom data i).filter isStartLine = [] := by
  rw [List.filter_eq_nil_iff]
  intro a ha
  rw [isStartFalseOfHead a 'E' (entriesHead data i a ha) (by decide)]
  simp

/-- The await lines of an operation named `name` contain exactly the start
line. -/
lemma awaitFilterStart (name : String) (o : Outcome)
    (h1 : isStartLine (name ++ " start") = true)
    (h2 : isStartLine (name ++ " done") = false)
    (h3 : (name ++ " FAILED: ").data[24]? = some 'F') :
    (awaitLog name o).filter isStartLine = [name ++ " start"] := by
  unfold awaitLog
  rw [List.filter_cons, if_pos h1, List.filter_cons]
  by_cases he : o.error ≠ 0
  · rw [if_pos he, if_neg ?_]
    · rfl
    · rw [isStartFalseAt24 _ (strGetElem _ _ 24 'F' (strGetElem _ _ 24 'F' (strGetElem _ _ 24 'F' h3)))]
      simp
  · rw [if_neg he, if_neg ?_]
    · rfl
    · rw [h2]
      simp

/-- A read operation's log filtered to issue lines. -/
lemma doReadFilterIssue (o : Outcome) (path : String) :
    (doReadLog o path).filter (isIssueLine path) = ["*** DoRead() doc=" ++ path] := by
  have h1 : isIssueLine path ("*** DoRead() doc=" ++ path) = true := by
    unfold isIssueLine
    simp
  have h3 : isIssueLine path ("Document # key/value pairs: " ++ toString o.data.length) = false :=
    isIssueFalseOfHead path _ 'D'
      (strGetElem "Document # key/value pairs: " _ 0 'D' (by decide)) (by decide)
  unfold doReadLog
  rw [List.filter_cons, if_pos h1, List.filter_append,
    awaitFilterIssue "DocumentReference.Get()" o path 'D' (by decide) (by decide),
    List.filter_cons, if_neg (by rw [h3]; simp), entriesFilterIssue]
  rfl

/-- A write operation's log filtered to issue lines. -/
lemma doWriteFilterIssue (o : Outcome) (path : String) :
    (doWriteLog o path).filter (isIssueLine path) = ["*** DoWrite() doc=" ++ path] := by
  have h1 : isIssueLine path ("*** DoWrite() doc=" ++ path) = true := by
    unfold isIssueLine
    simp
  unfold doWriteLog
  rw [List.filter_cons, if_pos h1,
    awaitFilterIssue "DocumentReference.Set()" o path 'D' (by decide) (by decide)]

/-- A read operation's log filtered to start lines. -/
lemma doReadFilterStart (o : Outcome) (path : String) :
    (doReadLog o path).filter isStartLine = ["DocumentReference.Get() start"] := by
  unfold doReadLog
  rw [List.filter_cons,
    if_neg (by
      rw [isStartFalseOfHead _ '*' (strGetElem "*** DoRead() doc=" path 0 '*' (by decide)) (by decide)]
      simp),
    List.filter_append,
    awaitFilterStart "DocumentReference.Get()" o (by decide) (by decide) (by decide),
    List.filter_cons,
    if_neg (by
      rw [isStartFalseAt8 _ (strGetElem "Document # key/value pairs: " _ 8 ' ' (by decide))]
      simp),
    entriesFilterStart]
  rfl

/-- A write operation's log filtered to start lines. -/
lemma doWriteFilterStart (o : Outcome) (path : String) :
    (doWriteLog o path).filter isStartLine = ["DocumentReference.Set() start"] := by
  unfold doWriteLog
  rw [List.filter_cons,
    if_neg (by
      rw [isStartFalseOfHead _ '*' (strGetElem "*** DoWrite() doc=" path 0 '*' (by decide)) (by decide)]
      simp),
    awaitFilterStart "DocumentReference.Set()" o (by decide) (by decide) (by decide)]
  rfl

/-- Closed form of the loop's log: the in-order concatenation of each
operation's segment, the operation at position `i` paired with outcome
`oracle i`. -/
lemma runTagsLogFlatten : ∀ (ops : List Operation) (oracle : Nat → Outcome) (i : Nat) (path : String),
    (runTags (ops.map Operation.toCInt) oracle i path).log
      = ((List.enumFrom i ops).map fun p =>
          match p.2 with
          | Operation.kRead => doReadLog (oracle p.1) path
          | Operation.kWrite => doWriteLog (oracle p.1) path).flatten := by
  intro ops
  induction ops with
  | nil => intro oracle i path; rfl
  | cons op rest ih =>
    intro oracle i path
    cases op with
    | kRead =>
      rw [runTagsConsRead]
      show doReadLog (oracle i) path ++ (runTags (rest.map Operation.toCInt) oracle (i + 1) path).log = _
      rw [ih oracle (i + 1) path]
      rfl
    | kWrite =>
      rw [runTagsConsWrite]
      show doWriteLog (oracle i) path ++ (runTags (rest.map Operation.toCInt) oracle (i + 1) path).log = _
      rw [ih oracle (i + 1) path]
      rfl

/-- The loop's log filtered to issue lines: one per operation, in
sequence order, whatever the outcomes. -/
lemma runTagsFilterIssue : ∀ (ops : List Operation) (oracle : Nat → Outcome) (i : Nat) (path : String),
    (runTags (ops.map Operation.toCInt) oracle i path).log.filter (isIssueLine path)
      = ops.map (issueLineOf path) := by
  intro ops
  induction ops with
  | nil => intro oracle i path; rfl
  | cons op rest ih =>
    intro oracle i path
    cases op with
    | kRead =>
      rw [runTagsConsRead]
      show (doReadLog (oracle i) path
          ++ (runTags (rest.map Operation.toCInt) oracle (i + 1) path).log).filter (isIssueLine path) = _
      rw [List.filter_append, doReadFilterIssue, ih oracle (i + 1) path]
      rfl
    | kWrite =>
      rw [runTagsConsWrite]
      show (doWriteLog (oracle i) path
          ++ (runTags (rest.map Operation.toCInt) oracle (i + 1) path).log).filter (isIssueLine path) = _
      rw [List.filter_append, doWriteFilterIssue, ih oracle (i + 1) path]
      rfl

/-- The loop's log filtered to await start lines: one per operation, in
sequence order, whatever the outcomes. -/
lemma runTagsFilterStart : ∀ (ops : List Operation) (oracle : Nat → Outcome) (i : Nat) (path : String),
    (runTags (ops.map Operation.toCInt) oracle i path).log.filter isStartLine
      = ops.map startLineOf := by
  intro ops
  induction ops with
  | nil => intro oracle i path; rfl
  | cons op rest ih =>
    intro oracle i path
    cases op with
    | kRead =>
      rw [runTagsConsRead]
      show (doReadLog (oracle i) path
          ++ (runTags (rest.map Operation.toCInt) oracle (i + 1) path).log).filter isStartLine = _
      rw [List.filter_append, doReadFilterStart, ih oracle (i + 1) path]
      rfl
    | kWrite =>
      rw [runTagsConsWrite]
      show (doWriteLog (oracle i) path
          ++ (runTags (rest.map Operation.toCInt) oracle (i + 1) path).log).filter isStartLine = _
      rw [List.filter_append, doWriteFilterStart, ih oracle (i + 1) path]
      rfl

/-- C8: after a successful parse and setup the runner logs the total
operation count, then the per-operation segments strictly in sequence
order (the log is their in-order concatenation, with one issue line and
one await start line per operation, in order), for every oracle — so a
failed completion never aborts the remaining operations — and exits 0. -/
theorem c8_sequential_no_abort :
    ∀ (argv : List String) (ops : List Operation) (oracle : Nat → Outcome),
      ParseOperations argv = .ok ops →
      ∃ post,
        (mainRun argv true true oracle).log
          = "Creating firebase::App" :: "Creating firebase::firestore::Firestore"
            :: ("Performing " ++ toString ops.length ++ " operations on document: " ++ docPath)
            :: post
        ∧ post = ((List.enumFrom 0 ops).map fun p =>
            match p.2 with
            | Operation.kRead => doReadLog (oracle p.1) docPath
            | Operation.kWrite => doWriteLog (oracle p.1) docPath).flatten
        ∧ post.filter (isIssueLine docPath) = ops.map (issueLineOf docPath)
        ∧ post.filter isStartLine = ops.map startLineOf
        ∧ (mainRun argv true true oracle).exitCode = 0 := by
  intro argv ops oracle h
  refine ⟨(runTags (ops.map Operation.toCInt) oracle 0 docPath).log, ?_, ?_, ?_, ?_, ?_⟩
  · unfold mainRun
    simp only [h, if_true]
  · exact runTagsLogFlatten ops oracle 0 docPath
  · exact runTagsFilterIssue ops oracle 0 docPath
  · exact runTagsFilterStart ops oracle 0 docPath
  · unfold mainRun
    simp only [h, if_true]
    exact runTagsMapExit ops oracle 0 docPath

/-- Witness for C8 on `["write", "read"]` with an oracle failing every
operation (`kErrorUnavailable`). -/
theorem c8_sequential_no_abort_witness :
    ∃ post,
      (mainRun ["write", "read"] true true (fun _ => ⟨14, "unavailable", []⟩)).log
        = "Creating firebase::App" :: "Creating firebase::firestore::Firestore"
          :: ("Performing " ++ toString ([Operation.kWrite, Operation.kRead] : List Operation).length
               ++ " operations on document: " ++ docPath)
          :: post
      ∧ post = ((List.enumFrom 0 ([Operation.kWrite, Operation.kRead] : List Operation)).map fun p =>
          match p.2 with
          | Operation.kRead => doReadLog ((fun _ => (⟨14, "unavailable", []⟩ : Outcome)) p.1) docPath
          | Operation.kWrite => doWriteLog ((fun _ => (⟨14, "unavailable", []⟩ : Outcome)) p.1) docPath).flatten
      ∧ post.filter (isIssueLine docPath)
          = ([Operation.kWrite, Operation.kRead] : List Operation).map (issueLineOf docPath)
      ∧ post.filter isStartLine
          = ([Operation.kWrite, Operation.kRead] : List Operation).map startLineOf
      ∧ (mainRun ["write", "read"] true true (fun _ => ⟨14, "unavailable", []⟩)).exitCode = 0 :=
  c8_sequential_no_abort ["write", "read"] [Operation.kWrite, Operation.kRead]
    (fun _ => ⟨14, "unavailable", []⟩) rfl

/-! ### C2 -/

/-- One step of the flag-variant token loop in the neutral state (no payload
pending). -/
lemma parseArgsStep (a : String) (rest : List String) (args : ParsedArguments) :
    ParseArgumentsAux (a :: rest) args false false
      = (if a = "read" then
           ParseArgumentsAux rest
             ⟨args.operations ++ [Operation.kRead], args.key, args.key_valid,
              args.value, args.value_valid⟩ false false
         else if a = "write" then
           ParseArgumentsAux rest
             ⟨args.operations ++ [Operation.kWrite], args.key, args.key_valid,
              args.value, args.value_valid⟩ false false
         else if a = "--key" then ParseArgumentsAux rest args true false
         else if a = "--value" then ParseArgumentsAux rest args false true
         else .error ("invalid argument: " ++ a ++ " (must be either \"read\" or \"write\")")) :=
  rfl

/-- The flag-variant token loop on a list of pure operation tokens: append
the mapped operations, everything else unchanged. -/
lemma parseArgumentsAuxOps : ∀ (tokens : List String) (args : ParsedArguments),
    (∀ t ∈ tokens, t = "read" ∨ t = "write") →
    ParseArgumentsAux tokens args false false
      = (if (args.operations ++ tokens.map opOfToken).length = 0 then .error noOpsMsg
         else .ok ⟨args.operations ++ tokens.map opOfToken, args.key, args.key_valid,
                   args.value, args.value_valid⟩) := by
  intro tokens
  induction tokens with
  | nil =>
    intro args h
    show (if args.operations.length = 0 then Except.error noOpsMsg else Except.ok args) = _
    simp
  | cons a rest ih =>
    intro args h
    have ha := h a (List.mem_cons_self a rest)
    have hrest : ∀ t ∈ rest, t = "read" ∨ t = "write" :=
      fun t ht => h t (List.mem_cons_of_mem a ht)
    rw [parseArgsStep]
    rcases ha with h1 | h1 <;> subst h1
    · rw [if_pos rfl, ih _ hrest]
      simp [List.append_assoc, opOfToken]
    · rw [if_neg (by decide), if_pos rfl, ih _ hrest]
      simp [List.append_assoc, opOfToken]

/-- `ParseArguments` on `--key K --value V` followed by operation tokens:
both payloads are consumed and recorded, the operations are the mapped
tokens. -/
lemma parseArgumentsPrefix (K V : String) (ops : List String)
    (h : ∀ t ∈ ops, t = "read" ∨ t = "write") (hne : ops ≠ []) :
    ParseArguments ("--key" :: K :: "--value" :: V :: ops)
      = .ok ⟨ops.map opOfToken, K, true, V, true⟩ := by
  unfold ParseArguments
  have s1 : ParseArgumentsAux ("--key" :: K :: "--value" :: V :: ops)
        ⟨[], "", false, "", false⟩ false false
      = ParseArgumentsAux ops ⟨[], K, true, V, true⟩ false false := rfl
  rw [s1, parseArgumentsAuxOps ops _ h, if_neg]
  · rfl
  · simp [List.length_eq_zero, hne]

/-- `ParseArguments` on a command line with no flags at all. -/
lemma parseArgumentsNoFlags (ops : List String)
    (h : ∀ t ∈ ops, t = "read" ∨ t = "write") (hne : ops ≠ []) :
    ParseArguments ops = .ok ⟨ops.map opOfToken, "", false, "", false⟩ := by
  unfold ParseArguments
  rw [parseArgumentsAuxOps ops _ h, if_neg]
  · rfl
  · simp [List.length_eq_zero, hne]

/-- Unfolding the flag-variant loop at a read operation. -/
lemma flaggedConsRead (rest : List Operation) (oracle : Nat → Outcome) (i : Nat)
    (path : String) (args : ParsedArguments) :
    Flagged.runTags ((Operation.kRead :: rest).map Operation.toCInt) oracle i path args
      = ⟨Flagged.doReadLog (oracle i) path
           ++ (Flagged.runTags (rest.map Operation.toCInt) oracle (i + 1) path args).log,
         Request.get :: (Flagged.runTags (rest.map Operation.toCInt) oracle (i + 1) path args).requests,
         (Flagged.runTags (rest.map Operation.toCInt) oracle (i + 1) path args).exitCode⟩ := rfl

/-- Unfolding the flag-variant loop at a write operation: the key and value
are taken from the parsed arguments with the `TestKey` / `TestValue`
defaults. -/
lemma flaggedConsWrite (rest : List Operation) (oracle : Nat → Outcome) (i : Nat)
    (path : String) (args : ParsedArguments) :
    Flagged.runTags ((Operation.kWrite :: rest).map Operation.toCInt) oracle i path args
      = ⟨Flagged.doWriteLog (oracle i) path
           (if args.key_valid then args.key else "TestKey")
           (if args.value_valid then args.value else "TestValue")
           ++ (Flagged.runTags (rest.map Operation.toCInt) oracle (i + 1) path args).log,
         Request.set [((if args.key_valid then args.key else "TestKey"),
                       FieldValue.String (if args.value_valid then args.value else "TestValue"))]
           :: (Flagged.runTags (rest.map Operation.toCInt) oracle (i + 1) path args).requests,
         (Flagged.runTags (rest.map Operation.toCInt) oracle (i + 1) path args).exitCode⟩ := rfl

/-- Every request the flag-variant loop issues is a get or the set with the
key/value selected by the parsed arguments. -/
lemma flaggedRequests : ∀ (ops : List Operation) (oracle : Nat → Outcome) (i : Nat)
    (path : String) (args : ParsedArguments),
    ∀ req ∈ (Flagged.runTags (ops.map Operation.toCInt) oracle i path args).requests,
      req = Request.get
      ∨ req = Request.set [((if args.key_valid then args.key else "TestKey"),
                            FieldValue.String (if args.value_valid then args.value else "TestValue"))] := by
  intro ops
  induction ops with
  | nil =>
    intro oracle i path args req hreq
    exact absurd hreq (List.not_mem_nil req)
  | cons op rest ih =>
    intro oracle i path args req hreq
    cases op with
    | kRead =>
      rw [flaggedConsRead] at hreq
      rcases List.mem_cons.mp hreq with h1 | h1
      · exact Or.inl h1
      · exact ih oracle (i + 1) path args req h1
    | kWrite =>
      rw [flaggedConsWrite] at hreq
      rcases List.mem_cons.mp hreq with h1 | h1
      · exact Or.inr h1
      · exact ih oracle (i + 1) path args req h1

/-- If the operation list contains a write, the loop issues the
corresponding set request. -/
lemma flaggedWriteIssued : ∀ (ops : List Operation) (oracle : Nat → Outcome) (i : Nat)
    (path : String) (args : ParsedArguments),
    Operation.kWrite ∈ ops →
    Request.set [((if args.key_valid then args.key else "TestKey"),
                  FieldValue.String (if args.value_valid then args.value else "TestValue"))]
      ∈ (Flagged.runTags (ops.map Operation.toCInt) oracle i path args).requests := by
  intro ops
  induction ops with
  | nil =>
    intro oracle i path args hw
    exact absurd hw (List.not_mem_nil _)
  | cons op rest ih =>
    intro oracle i path args hw
    cases op with
    | kRead =>
      rw [flaggedConsRead]
      have hw2 : Operation.kWrite ∈ rest := by
        rcases List.mem_cons.mp hw with h1 | h1
        · exact absurd h1.symm (by decide)
        · exact h1
      exact List.mem_cons_of_mem _ (ih oracle (i + 1) path args hw2)
    | kWrite =>
      rw [flaggedConsWrite]
      exact List.mem_cons_self _ _

/-- The requests of a full flag-variant run after a successful parse and
setup. -/
lemma flaggedMainRequests (argv : List String) (args : ParsedArguments)
    (oracle : Nat → Outcome) (h : ParseArguments argv = .ok args) :
    (Flagged.mainRun argv true true oracle).requests
      = (Flagged.runTags (args.operations.map Operation.toCInt) oracle 0 docPath args).requests := by
  unfold Flagged.mainRun
  simp only [h, if_true]


/-- One syntactic unit of a flag-variant command line: a positional
operation token, or a flag together with the token it consumes as its
payload.  An arbitrary interleaving of such units — flags before, between
or after the operation tokens, in either order, with arbitrary payload
strings — renders to a raw token list via `itemsTokens`. -/
inductive ArgItem where
  | op (t : String)
  | keyFlag (payload : String)
  | valueFlag (payload : String)
deriving DecidableEq, Repr

/-- The raw tokens of one command-line unit. -/
def itemTokens : ArgItem → List String
  | .op t => [t]
  | .keyFlag p => ["--key", p]
  | .valueFlag p => ["--value", p]

/-- The raw command line of a unit list. -/
def itemsTokens (items : List ArgItem) : List String :=
  (items.map itemTokens).flatten

/-- The operation tokens of a unit list, in order. -/
def itemsOps : List ArgItem → List String
  | [] => []
  | .op t :: rest => t :: itemsOps rest
  | .keyFlag _ :: rest => itemsOps rest
  | .valueFlag _ :: rest => itemsOps rest

/-- The key state (payload, valid flag) after folding the units over an
initial state: the last `--key` payload wins, as in the parser. -/
def lastKeyFrom (k : String) (kv : Bool) : List ArgItem → String × Bool
  | [] => (k, kv)
  | .op _ :: rest => lastKeyFrom k kv rest
  | .keyFlag p :: rest => lastKeyFrom p true rest
  | .valueFlag _ :: rest => lastKeyFrom k kv rest

/-- The value state (payload, valid flag) after folding the units. -/
def lastValueFrom (v : String) (vv : Bool) : List ArgItem → String × Bool
  | [] => (v, vv)
  | .op _ :: rest => lastValueFrom v vv rest
  | .keyFlag _ :: rest => lastValueFrom v vv rest
  | .valueFlag p :: rest => lastValueFrom p true rest

/-- A `--key` flag in the neutral state consumes the next token as the key
payload, whatever that token is. -/
lemma parseArgsStepKey (p : String) (toks : List String) (args : ParsedArguments) :
    ParseArgumentsAux ("--key" :: p :: toks) args false false
      = ParseArgumentsAux toks ⟨args.operations, p, true, args.value, args.value_valid⟩ false false :=
  rfl

/-- A `--value` flag in the neutral state consumes the next token as the
value payload, whatever that token is. -/
lemma parseArgsStepValue (p : String) (toks : List String) (args : ParsedArguments) :
    ParseArgumentsAux ("--value" :: p :: toks) args false false
      = ParseArgumentsAux toks ⟨args.operations, args.key, args.key_valid, p, true⟩ false false :=
  rfl

/-- The flag-variant token loop over an arbitrary interleaving of operation
tokens and flag/payload pairs: the operations are appended in order, and
the key/value states are the last-wins folds of the flags. -/
lemma parseArgumentsAuxItems : ∀ (items : List ArgItem) (args : ParsedArguments),
    (∀ t, ArgItem.op t ∈ items → t = "read" ∨ t = "write") →
    ParseArgumentsAux (itemsTokens items) args false false
      = (if (args.operations ++ (itemsOps items).map opOfToken).length = 0
         then .error noOpsMsg
         else .ok ⟨args.operations ++ (itemsOps items).map opOfToken,
                   (lastKeyFrom args.key args.key_valid items).1,
                   (lastKeyFrom args.key args.key_valid items).2,
                   (lastValueFrom args.value args.value_valid items).1,
                   (lastValueFrom args.value args.value_valid items).2⟩) := by
  intro items
  induction items with
  | nil =>
    intro args h
    show (if args.operations.length = 0 then Except.error noOpsMsg else Except.ok args) = _
    simp [itemsOps, lastKeyFrom, lastValueFrom]
  | cons it rest ih =>
    intro args h
    have hrest : ∀ u, ArgItem.op u ∈ rest → u = "read" ∨ u = "write" :=
      fun u hu => h u (List.mem_cons_of_mem _ hu)
    cases it with
    | op t =>
      have ht := h t (List.mem_cons_self _ _)
      have htok : itemsTokens (ArgItem.op t :: rest) = t :: itemsTokens rest := by
        simp [itemsTokens, itemTokens]
      rw [htok, parseArgsStep]
      rcases ht with h1 | h1 <;> subst h1
      · rw [if_pos rfl, ih _ hrest]
        simp [itemsOps, lastKeyFrom, lastValueFrom, List.append_assoc, opOfToken]
      · rw [if_neg (by decide), if_pos rfl, ih _ hrest]
        simp [itemsOps, lastKeyFrom, lastValueFrom, List.append_assoc, opOfToken]
    | keyFlag p =>
      have htok : itemsTokens (ArgItem.keyFlag p :: rest) = "--key" :: p :: itemsTokens rest := by
        simp [itemsTokens, itemTokens]
      rw [htok, parseArgsStepKey, ih _ hrest]
      simp [itemsOps, lastKeyFrom, lastValueFrom]
    | valueFlag p =>
      have htok : itemsTokens (ArgItem.valueFlag p :: rest) = "--value" :: p :: itemsTokens rest := by
        simp [itemsTokens, itemTokens]
      rw [htok, parseArgsStepValue, ih _ hrest]
      simp [itemsOps, lastKeyFrom, lastValueFrom]

/-- Once the key state holds `K`, further units whose key payloads are all
`K` leave it at `K`. -/
lemma lastKeyInv : ∀ (items : List ArgItem) (K : String),
    (∀ p, ArgItem.keyFlag p ∈ items → p = K) → lastKeyFrom K true items = (K, true) := by
  intro items
  induction items with
  | nil => intro K h; rfl
  | cons it rest ih =>
    intro K h
    cases it with
    | op t => exact ih K (fun p hp => h p (List.mem_cons_of_mem _ hp))
    | keyFlag p =>
      have hp : p = K := h p (List.mem_cons_self _ _)
      subst hp
      exact ih p (fun q hq => h q (List.mem_cons_of_mem _ hq))
    | valueFlag q => exact ih K (fun p hp => h p (List.mem_cons_of_mem _ hp))

/-- If a unit list contains a `--key K` flag and all its key flags carry
`K`, the folded key state is `(K, true)` from any initial state. -/
lemma lastKeyOf : ∀ (items : List ArgItem) (k : String) (kv : Bool) (K : String),
    (∀ p, ArgItem.keyFlag p ∈ items → p = K) → ArgItem.keyFlag K ∈ items →
    lastKeyFrom k kv items = (K, true) := by
  intro items
  induction items with
  | nil =>
    intro k kv K hall hmem
    exact absurd hmem (List.not_mem_nil _)
  | cons it rest ih =>
    intro k kv K hall hmem
    have hall2 : ∀ p, ArgItem.keyFlag p ∈ rest → p = K :=
      fun p hp => hall p (List.mem_cons_of_mem _ hp)
    cases it with
    | op t =>
      have hm : ArgItem.keyFlag K ∈ rest := by
        rcases List.mem_cons.mp hmem with h1 | h1
        · exact ArgItem.noConfusion h1
        · exact h1
      exact ih k kv K hall2 hm
    | keyFlag p =>
      have hp : p = K := hall p (List.mem_cons_self _ _)
      subst hp
      exact lastKeyInv rest p hall2
    | valueFlag q =>
      have hm : ArgItem.keyFlag K ∈ rest := by
        rcases List.mem_cons.mp hmem with h1 | h1
        · exact ArgItem.noConfusion h1
        · exact h1
      exact ih k kv K hall2 hm

/-- Value analogue of `lastKeyInv`. -/
lemma lastValueInv : ∀ (items : List ArgItem) (V : String),
    (∀ p, ArgItem.valueFlag p ∈ items → p = V) → lastValueFrom V true items = (V, true) := by
  intro items
  induction items with
  | nil => intro V h; rfl
  | cons it rest ih =>
    intro V h
    cases it with
    | op t => exact ih V (fun p hp => h p (List.mem_cons_of_mem _ hp))
    | keyFlag q => exact ih V (fun p hp => h p (List.mem_cons_of_mem _ hp))
    | valueFlag p =>
      have hp : p = V := h p (List.mem_cons_self _ _)
      subst hp
      exact ih p (fun q hq => h q (List.mem_cons_of_mem _ hq))

/-- Value analogue of `lastKeyOf`. -/
lemma lastValueOf : ∀ (items : List ArgItem) (v : String) (vv : Bool) (V : String),
    (∀ p, ArgItem.valueFlag p ∈ items → p = V) → ArgItem.valueFlag V ∈ items →
    lastValueFrom v vv items = (V, true) := by
  intro items
  induction items with
  | nil =>
    intro v vv V hall hmem
    exact absurd hmem (List.not_mem_nil _)
  | cons it rest ih =>
    intro v vv V hall hmem
    have hall2 : ∀ p, ArgItem.valueFlag p ∈ rest → p = V :=
      fun p hp => hall p (List.mem_cons_of_mem _ hp)
    cases it with
    | op t =>
      have hm : ArgItem.valueFlag V ∈ rest := by
        rcases List.mem_cons.mp hmem with h1 | h1
        · exact ArgItem.noConfusion h1
        · exact h1
      exact ih v vv V hall2 hm
    | keyFlag q =>
      have hm : ArgItem.valueFlag V ∈ rest := by
        rcases List.mem_cons.mp hmem with h1 | h1
        · exact ArgItem.noConfusion h1
        · exact h1
      exact ih v vv V hall2 hm
    | valueFlag p =>
      have hp : p = V := hall p (List.mem_cons_self _ _)
      subst hp
      exact lastValueInv rest p hall2

/-- An operation unit contributes its token to the operation tokens. -/
lemma itemsOpsMemOf : ∀ (items : List ArgItem) (t : String),
    ArgItem.op t ∈ items → t ∈ itemsOps items := by
  intro items
  induction items with
  | nil =>
    intro t ht
    exact absurd ht (List.not_mem_nil _)
  | cons it rest ih =>
    intro t ht
    cases it with
    | op u =>
      rcases List.mem_cons.mp ht with h1 | h1
      · injection h1 with h2
        subst h2
        exact List.mem_cons_self _ _
      · exact List.mem_cons_of_mem _ (ih t h1)
    | keyFlag p =>
      rcases List.mem_cons.mp ht with h1 | h1
      · exact ArgItem.noConfusion h1
      · exact ih t h1
    | valueFlag p =>
      rcases List.mem_cons.mp ht with h1 | h1
      · exact ArgItem.noConfusion h1
      · exact ih t h1

/-- `ParseArguments` on any interleaving of valid operation tokens and
`--key K` / `--value V` flag pairs (each flag present, all key payloads `K`,
all value payloads `V`, at least one `write`): the flags are accepted, the
payloads recorded, and the operations are exactly the mapped operation
tokens. -/
lemma parseArgumentsItems (items : List ArgItem) (K V : String)
    (hops : ∀ t, ArgItem.op t ∈ items → t = "read" ∨ t = "write")
    (hkAll : ∀ p, ArgItem.keyFlag p ∈ items → p = K) (hkMem : ArgItem.keyFlag K ∈ items)
    (hvAll : ∀ p, ArgItem.valueFlag p ∈ items → p = V) (hvMem : ArgItem.valueFlag V ∈ items)
    (hw : ArgItem.op "write" ∈ items) :
    ParseArguments (itemsTokens items)
      = .ok ⟨(itemsOps items).map opOfToken, K, true, V, true⟩ := by
  unfold ParseArguments
  rw [parseArgumentsAuxItems items ⟨[], "", false, "", false⟩ hops]
  have hne : itemsOps items ≠ [] := by
    intro he
    have hmem := itemsOpsMemOf items "write" hw
    rw [he] at hmem
    exact List.not_mem_nil _ hmem
  dsimp only
  rw [lastKeyOf items "" false K hkAll hkMem, lastValueOf items "" false V hvAll hvMem,
    if_neg (by simp [List.length_eq_zero, hne])]
  rfl

/-- The flag-variant token loop on a command line containing no flag
tokens leaves the key and value state untouched when it succeeds. -/
lemma parseAuxNoFlagTokens : ∀ (argv : List String) (args res : ParsedArguments),
    "--key" ∉ argv → "--value" ∉ argv →
    ParseArgumentsAux argv args false false = .ok res →
    res.key_valid = args.key_valid ∧ res.value_valid = args.value_valid
      ∧ res.key = args.key ∧ res.value = args.value := by
  intro argv
  induction argv with
  | nil =>
    intro args res hk hv h
    rw [show ParseArgumentsAux [] args false false
        = (if args.operations.length = 0 then Except.error noOpsMsg else Except.ok args)
      from rfl] at h
    by_cases hl : args.operations.length = 0
    · rw [if_pos hl] at h
      exact Except.noConfusion h
    · rw [if_neg hl] at h
      injection h with h2
      subst h2
      exact ⟨rfl, rfl, rfl, rfl⟩
  | cons a rest ih =>
    intro args res hk hv h
    have hk1 : ¬ a = "--key" := by
      intro he
      subst he
      exact hk (List.mem_cons_self _ _)
    have hv1 : ¬ a = "--value" := by
      intro he
      subst he
      exact hv (List.mem_cons_self _ _)
    have hk2 : "--key" ∉ rest := fun he => hk (List.mem_cons_of_mem _ he)
    have hv2 : "--value" ∉ rest := fun he => hv (List.mem_cons_of_mem _ he)
    rw [parseArgsStep] at h
    by_cases har : a = "read"
    · rw [if_pos har] at h
      exact ih ⟨args.operations ++ [Operation.kRead], args.key, args.key_valid,
        args.value, args.value_valid⟩ res hk2 hv2 h
    · by_cases haw : a = "write"
      · rw [if_neg har, if_pos haw] at h
        exact ih ⟨args.operations ++ [Operation.kWrite], args.key, args.key_valid,
          args.value, args.value_valid⟩ res hk2 hv2 h
      · rw [if_neg har, if_neg haw, if_neg hk1, if_neg hv1] at h
        exact Except.noConfusion h

/-- A successful parse of a command line with no flag tokens records no
key/value override. -/
lemma parseNoFlagFields (argv : List String) (args : ParsedArguments)
    (hk : "--key" ∉ argv) (hv : "--value" ∉ argv)
    (h : ParseArguments argv = .ok args) :
    args.key_valid = false ∧ args.value_valid = false := by
  unfold ParseArguments at h
  have hr := parseAuxNoFlagTokens argv ⟨[], "", false, "", false⟩ args hk hv h
  exact ⟨hr.1, hr.2.1⟩

/-- C2: for every command line that is an interleaving of valid operation
tokens with `--key K` / `--value V` flag pairs — the flags anywhere among
the operations, in either order, each payload consumed unconditionally —
with at least one `write`, the parser accepts the flags, records `K` and
`V`, and every set request the run issues writes the single field `K = V`;
and for every command line containing no `--key` / `--value` token at all,
every set request the run issues writes the fixed default
`TestKey = TestValue`. -/
theorem c2_key_value_flags :
    (∀ (items : List ArgItem) (K V : String),
      (∀ t, ArgItem.op t ∈ items → t = "read" ∨ t = "write") →
      (∀ p, ArgItem.keyFlag p ∈ items → p = K) → ArgItem.keyFlag K ∈ items →
      (∀ p, ArgItem.valueFlag p ∈ items → p = V) → ArgItem.valueFlag V ∈ items →
      ArgItem.op "write" ∈ items →
      ∃ args : ParsedArguments,
        ParseArguments (itemsTokens items) = .ok args
        ∧ args.operations = (itemsOps items).map opOfToken
        ∧ args.key = K ∧ args.key_valid = true
        ∧ args.value = V ∧ args.value_valid = true
        ∧ ∀ oracle : Nat → Outcome,
            (∀ req ∈ (Flagged.mainRun (itemsTokens items) true true oracle).requests,
              req = Request.get ∨ req = Request.set [(K, FieldValue.String V)])
            ∧ Request.set [(K, FieldValue.String V)]
                ∈ (Flagged.mainRun (itemsTokens items) true true oracle).requests)
    ∧ (∀ argv : List String, "--key" ∉ argv → "--value" ∉ argv →
      ∀ oracle : Nat → Outcome,
        ∀ req ∈ (Flagged.mainRun argv true true oracle).requests,
          req = Request.get
          ∨ req = Request.set [("TestKey", FieldValue.String "TestValue")]) := by
  constructor
  · intro items K V hops hkAll hkMem hvAll hvMem hw
    have hp := parseArgumentsItems items K V hops hkAll hkMem hvAll hvMem hw
    refine ⟨⟨(itemsOps items).map opOfToken, K, true, V, true⟩, hp, rfl, rfl, rfl, rfl, rfl, ?_⟩
    intro oracle
    have hreq := flaggedMainRequests _ _ oracle hp
    constructor
    · intro req hmem
      rw [hreq] at hmem
      have hr := flaggedRequests ((itemsOps items).map opOfToken) oracle 0 docPath
        ⟨(itemsOps items).map opOfToken, K, true, V, true⟩ req hmem
      simpa using hr
    · rw [hreq]
      have hkw : Operation.kWrite ∈ (itemsOps items).map opOfToken := by
        have he : opOfToken "write" = Operation.kWrite := rfl
        exact he ▸ List.mem_map_of_mem opOfToken (itemsOpsMemOf items "write" hw)
      have hi := flaggedWriteIssued ((itemsOps items).map opOfToken) oracle 0 docPath
        ⟨(itemsOps items).map opOfToken, K, true, V, true⟩ hkw
      simpa using hi
  · intro argv hk hv oracle req hmem
    cases hp : ParseArguments argv with
    | error msg =>
      unfold Flagged.mainRun at hmem
      simp only [hp] at hmem
      exact absurd hmem (List.not_mem_nil req)
    | ok args =>
      obtain ⟨hkv, hvv⟩ := parseNoFlagFields argv args hk hv hp
      rw [flaggedMainRequests argv args oracle hp] at hmem
      have hr := flaggedRequests args.operations oracle 0 docPath args req hmem
      rw [hkv, hvv] at hr
      simpa using hr

/-- Witness for C2 at the interleaved command line
`read --value 1 write --key A write` (flags between operations, value flag
before key flag, a flag after the first write) and, for the default half,
at the flag-free command line `["write"]`. -/
theorem c2_key_value_flags_witness :
    (∃ args : ParsedArguments,
      ParseArguments (itemsTokens [ArgItem.op "read", ArgItem.valueFlag "1",
          ArgItem.op "write", ArgItem.keyFlag "A", ArgItem.op "write"]) = .ok args
      ∧ args.operations = (itemsOps [ArgItem.op "read", ArgItem.valueFlag "1",
          ArgItem.op "write", ArgItem.keyFlag "A", ArgItem.op "write"]).map opOfToken
      ∧ args.key = "A" ∧ args.key_valid = true
      ∧ args.value = "1" ∧ args.value_valid = true
      ∧ ∀ oracle : Nat → Outcome,
          (∀ req ∈ (Flagged.mainRun (itemsTokens [ArgItem.op "read", ArgItem.valueFlag "1",
                ArgItem.op "write", ArgItem.keyFlag "A", ArgItem.op "write"]) true true oracle).requests,
            req = Request.get ∨ req = Request.set [("A", FieldValue.String "1")])
          ∧ Request.set [("A", FieldValue.String "1")]
              ∈ (Flagged.mainRun (itemsTokens [ArgItem.op "read", ArgItem.valueFlag "1",
                  ArgItem.op "write", ArgItem.keyFlag "A", ArgItem.op "write"]) true true oracle).requests)
    ∧ (∀ oracle : Nat → Outcome,
        ∀ req ∈ (Flagged.mainRun ["write"] true true oracle).requests,
          req = Request.get ∨ req = Request.set [("TestKey", FieldValue.String "TestValue")]) :=
  ⟨c2_key_value_flags.1 [ArgItem.op "read", ArgItem.valueFlag "1", ArgItem.op "write",
      ArgItem.keyFlag "A", ArgItem.op "write"] "A" "1"
      (by intro t ht; simp at ht; tauto)
      (by intro p hp; simp at hp; exact hp)
      (by decide)
      (by intro p hp; simp at hp; exact hp)
      (by decide)
      (by decide),
   c2_key_value_flags.2 ["write"] (by decide) (by decide)⟩
